import Mathlib

/-
Verification of the bid-resolution engine of the Procurement repository.

The repository contains three parallel bidding models; we embed the parts
relevant to the specified properties:
* `Procurement.SimpleBidding` — the simple close-then-approve model
  (src/services/biddingService.ts, `BiddingService`).
* `Procurement.Live` — the continuous reverse-auction model
  (src/services/liveAuctionService.ts, `LiveAuctionService`).
* `Procurement.Forward` — the negotiated forward model
  (App.tsx / components/VendorDashboard.tsx, in-memory state).

Opaque display strings (vendor names, lane codes, city names) are embedded
as numeric codes; the engine only ever compares them for equality.
Timestamps are embedded as naturals; `updatedAt` bookkeeping fields that no
logic reads are omitted.  JavaScript `Array.prototype.sort` with comparator
`(a, b) => k a - k b` is a stable ascending sort by the key `k`; it is
embedded as the stable insertion sort `sortK`.
-/

namespace Procurement

/-- Stable insertion of `x` into `l` by the integer key `k`: `x` goes in
front of the first element whose key is not smaller, so among equal keys
`x` stays before elements it preceded. -/
def insertK {α : Type} (k : α → Int) (x : α) : List α → List α
  | [] => [x]
  | y :: ys => if k x ≤ k y then x :: y :: ys else y :: insertK k x ys

/-- Stable ascending sort by the key `k`, the embedding of a stable
JavaScript sort with comparator subtracting keys. -/
def sortK {α : Type} (k : α → Int) : List α → List α
  | [] => []
  | x :: xs => insertK k x (sortK k xs)

namespace SimpleBidding

/-- `VendorBidStatus` from types.ts (simple bidding model). -/
inductive VendorBidStatus
  | PENDING
  | APPROVED
  | REJECTED
deriving DecidableEq

/-- Shipment status strings written by the simple bidding model.  The
TypeScript field is a string; the code only ever writes these five
literals (`updateShipmentStatus` is also called with the literal
`APPROVED`, which is outside the declared `ShipmentStatus` enum). -/
inductive ShipStatus
  | OPEN
  | PENDING_ADMIN_APPROVAL
  | FINALIZED
  | CLOSED
  | APPROVED
deriving DecidableEq

/-- `VendorBid` from types.ts; `vendorName` is an opaque display code. -/
structure VendorBid where
  id : Nat
  shipmentId : Nat
  vendorId : Nat
  vendorName : Nat
  bidAmount : Int
  status : VendorBidStatus
  createdAt : Nat
deriving DecidableEq

/-- `SimpleShipment` from types.ts, restricted to the fields the bidding
logic reads or writes.  `auctionClosedAt` is kept as a set-flag. -/
structure SimpleShipment where
  id : Nat
  status : ShipStatus
  winningBidId : Option Nat
  finalAmount : Option Int
  auctionClosedAt : Bool
deriving DecidableEq

/-- The Firebase realtime database as seen by `BiddingService`: the
`shipments` and `bids` collections, each in push-key (insertion) order. -/
structure BidDB where
  shipments : List SimpleShipment
  bids : List VendorBid
deriving DecidableEq

/-- `BiddingService.getBidsForShipment`: all bids of the shipment, stably
sorted ascending by `bidAmount`. -/
def getBidsForShipment (db : BidDB) (sid : Nat) : List VendorBid :=
  sortK (fun b => b.bidAmount) (db.bids.filter (fun b => decide (b.shipmentId = sid)))

/-- `BiddingService.getVendorBidOnShipment`: the first bid of the vendor on
the shipment, regardless of the bid status. -/
def getVendorBidOnShipment (db : BidDB) (sid vid : Nat) : Option VendorBid :=
  db.bids.find? (fun b => decide (b.shipmentId = sid ∧ b.vendorId = vid))

/-- Result of `BiddingService.placeBid`. -/
inductive PlaceBidResult
  | ok (id : Nat)
  | alreadyBid
deriving DecidableEq

/-- `BiddingService.placeBid`: rejected iff the vendor already has any bid
on the shipment; otherwise a fresh `PENDING` bid is pushed.  No shipment
state or bidding-window check is performed. -/
def placeBid (db : BidDB) (sid vid vendorName : Nat) (amount : Int)
    (newId now : Nat) : BidDB × PlaceBidResult :=
  match getVendorBidOnShipment db sid vid with
  | some _ => (db, .alreadyBid)
  | none =>
      ({ db with
          bids := db.bids ++
            [⟨newId, sid, vid, vendorName, amount, .PENDING, now⟩] },
        .ok newId)

/-- `BiddingService.updateShipmentStatus`: builds an update payload with
the status, `auctionClosedAt` for `PENDING_ADMIN_APPROVAL`, and — only
when the new status is `FINALIZED` or `APPROVED` — the `winningBidId` and
`finalAmount` properties.  For the latter statuses the optional arguments
are copied into the payload even when absent; the firebase `update()`
throws on any payload property holding `undefined` (here modelled by
`none`), the function's own try/catch swallows the error, and nothing at
all is written.  Otherwise the shipment record is updated. -/
def updateShipmentStatus (db : BidDB) (sid : Nat) (status : ShipStatus)
    (winningBidId : Option Nat) (finalAmount : Option Int) : BidDB :=
  if (status = .FINALIZED ∨ status = .APPROVED) ∧
      (winningBidId = none ∨ finalAmount = none) then db
  else
    { db with
      shipments := db.shipments.map (fun s =>
        if s.id = sid then
          let s1 : SimpleShipment := { s with status := status }
          let s2 : SimpleShipment :=
            if status = .PENDING_ADMIN_APPROVAL then { s1 with auctionClosedAt := true } else s1
          if status = .FINALIZED ∨ status = .APPROVED then
            { s2 with winningBidId := winningBidId, finalAmount := finalAmount }
          else s2
        else s) }

/-- A single `update(ref(database, BIDS_PATH/bidId), { status })` write. -/
def setBidStatus (db : BidDB) (bidId : Nat) (st : VendorBidStatus) : BidDB :=
  { db with
    bids := db.bids.map (fun b => if b.id = bidId then { b with status := st } else b) }

/-- Result of `BiddingService.closeAuction`. -/
inductive CloseResult
  | noBids
  | winnerSelected (vendorName : Nat) (amount : Int)
deriving DecidableEq

/-- `BiddingService.closeAuction`: with no bids the shipment is closed;
otherwise the head of the amount-sorted bid list is the winner, it is
approved, all others are rejected and the shipment moves to
`PENDING_ADMIN_APPROVAL` (passing the winner id and amount to
`updateShipmentStatus`).  The source checks `allBids.length === 0` and then
sorts; since sorting preserves emptiness the match below on the sorted list
is the same case split. -/
def closeAuction (db : BidDB) (sid : Nat) : BidDB × CloseResult :=
  let allBids := getBidsForShipment db sid
  match sortK (fun b => b.bidAmount) allBids with
  | [] => (updateShipmentStatus db sid .CLOSED none none, .noBids)
  | winningBid :: rest =>
      let db1 := updateShipmentStatus db sid .PENDING_ADMIN_APPROVAL
        (some winningBid.id) (some winningBid.bidAmount)
      let db2 := setBidStatus db1 winningBid.id .APPROVED
      let db3 := rest.foldl (fun d b => setBidStatus d b.id .REJECTED) db2
      (db3, .winnerSelected winningBid.vendorName winningBid.bidAmount)

/-- `BiddingService.approveBid`: approves the given bid, rejects every
other bid of the shipment, then calls `updateShipmentStatus` with status
`APPROVED`, the winning bid id and `finalAmount` passed as `undefined` —
a payload the firebase `update()` rejects, so that final shipment write
silently fails and the shipment record is left unchanged.  No check of
the current shipment state is performed, and the returned result reports
success regardless. -/
def approveBid (db : BidDB) (bidId sid : Nat) : BidDB :=
  let db1 := setBidStatus db bidId .APPROVED
  let allBids := getBidsForShipment db1 sid
  let db2 := allBids.foldl
    (fun d b => if ¬ b.id = bidId then setBidStatus d b.id .REJECTED else d) db1
  updateShipmentStatus db2 sid .APPROVED (some bidId) none

end SimpleBidding

namespace Live

/-- `ReverseBid.status` from types.ts: the declared string union also
contains `REVISED` (with a `revisedFrom` pointer documented as the
superseded bid), but no operation in the source ever writes it. -/
inductive ReverseBidStatus
  | ACTIVE
  | REVISED
  | OUTBID
  | APPROVED
deriving DecidableEq

/-- `LiveAuctionStatus` from types.ts. -/
inductive LiveAuctionStatus
  | ACTIVE
  | CLOSED
  | EXPIRED
deriving DecidableEq

/-- `ReverseBid` from types.ts (the unused `revisedFrom` field is kept to
record that `placeBid` never populates it). -/
structure ReverseBid where
  id : Nat
  auctionId : Nat
  laneId : Nat
  vendorId : Nat
  vendorName : Nat
  amount : Int
  status : ReverseBidStatus
  createdAt : Nat
  revisedFrom : Option Nat
deriving DecidableEq

/-- `LiveAuction` from types.ts, restricted to the fields the bidding
logic reads or writes. -/
structure LiveAuction where
  id : Nat
  laneId : Nat
  status : LiveAuctionStatus
  startTime : Nat
  endTime : Nat
  lowestBid : Option Int
  lowestBidVendorId : Option Nat
  winningBidId : Option Nat
deriving DecidableEq

/-- The realtime database as seen by `LiveAuctionService`: the
`live_auctions` and `reverse_bids` collections in push-key order. -/
structure LiveDB where
  auctions : List LiveAuction
  bids : List ReverseBid
deriving DecidableEq

/-- `LiveAuctionService.getAuctionById`. -/
def getAuctionById (db : LiveDB) (aid : Nat) : Option LiveAuction :=
  db.auctions.find? (fun a => decide (a.id = aid))

/-- `LiveAuctionService.getBidsForAuction`: the ACTIVE bids of the
auction, stably sorted ascending by amount. -/
def getBidsForAuction (db : LiveDB) (aid : Nat) : List ReverseBid :=
  sortK (fun b => b.amount)
    (db.bids.filter (fun b => decide (b.auctionId = aid ∧ b.status = .ACTIVE)))

/-- `LiveAuctionService.getVendorBidsOnAuction`: all bids of the vendor on
the auction (any status), stably sorted newest first; the descending sort
by `createdAt` is the ascending stable sort by the negated key. -/
def getVendorBidsOnAuction (db : LiveDB) (aid vid : Nat) : List ReverseBid :=
  sortK (fun b => -(b.createdAt : Int))
    (db.bids.filter (fun b => decide (b.auctionId = aid ∧ b.vendorId = vid)))

/-- The `console.warn` condition in `LiveAuctionService.placeBid`: there
are ACTIVE bids and the new amount is above the current market lowest. -/
def nonCompetitive (db : LiveDB) (aid : Nat) (amount : Int) : Bool :=
  match ((getBidsForAuction db aid).map (fun b => b.amount)).min? with
  | some m => decide (m < amount)
  | none => false

/-- The `update` of the auction's cached `lowestBid` in `placeBid`. -/
def updateAuctionLowest (db : LiveDB) (aid : Nat) (amount : Int) (vid : Nat) : LiveDB :=
  { db with
    auctions := db.auctions.map (fun a =>
      if a.id = aid then { a with lowestBid := some amount, lowestBidVendorId := some vid }
      else a) }

/-- Result of `LiveAuctionService.placeBid`.  `ok` carries the pushed bid
id and whether the non-competitive warning was logged. -/
inductive PlaceBidOutcome
  | ok (id : Nat) (warned : Bool)
  | missingFields
  | invalidAmount
  | auctionNotFound
  | notActive (st : LiveAuctionStatus)
  | expired
  | notLowerThanOwnBid (prev : Int)
deriving DecidableEq

/-- The tail of `LiveAuctionService.placeBid` once all validations have
passed: push a fresh ACTIVE bid and, when the amount beats the current
market lowest (`Infinity` when there is none), cache it on the auction. -/
def admitBid (db : LiveDB) (aid vid lid vendorName : Nat) (amount : Int)
    (newId now : Nat) : LiveDB × PlaceBidOutcome :=
  let warned := nonCompetitive db aid amount
  let lowest := ((getBidsForAuction db aid).map (fun b => b.amount)).min?
  let db1 : LiveDB :=
    { db with bids := db.bids ++ [⟨newId, aid, lid, vid, vendorName, amount, .ACTIVE, now, none⟩] }
  let db2 :=
    match lowest with
    | some m => if amount < m then updateAuctionLowest db1 aid amount vid else db1
    | none => updateAuctionLowest db1 aid amount vid
  (db2, .ok newId warned)

/-- `LiveAuctionService.placeBid`.  Checks, in source order: required
fields truthy (numeric codes model the id strings, `0` standing for the
falsy empty string); amount positive; auction exists; auction status
ACTIVE; auction not expired (`endTime < now`, the window start is never
checked); the new amount strictly below the vendor's own latest bid.  The
comparison with the market-wide lowest bid of other vendors only sets the
warning flag and never rejects.  The prior bid of the vendor is left
untouched: the new bid is appended with status ACTIVE. -/
def placeBid (db : LiveDB) (aid vid lid vendorName : Nat) (amount : Int)
    (newId now : Nat) : LiveDB × PlaceBidOutcome :=
  if aid = 0 ∨ vid = 0 ∨ vendorName = 0 ∨ lid = 0 then (db, .missingFields)
  else if amount ≤ 0 then (db, .invalidAmount)
  else
    match getAuctionById db aid with
    | none => (db, .auctionNotFound)
    | some auction =>
        if ¬ auction.status = .ACTIVE then (db, .notActive auction.status)
        else if auction.endTime < now then (db, .expired)
        else
          match (getVendorBidsOnAuction db aid vid).head? with
          | some latestBid =>
              if latestBid.amount ≤ amount then (db, .notLowerThanOwnBid latestBid.amount)
              else admitBid db aid vid lid vendorName amount newId now
          | none => admitBid db aid vid lid vendorName amount newId now

end Live

namespace Forward

/-- `BidStatus` from types.ts (forward negotiated model). -/
inductive BidStatus
  | OPEN
  | CLOSED
  | NEGOTIATING
  | FINALIZED
  | ASSIGNED
deriving DecidableEq

/-- `BidOffer` from types.ts; `vendorName` and the lane codes are opaque
display codes. -/
structure BidOffer where
  vendorId : Nat
  vendorName : Nat
  amount : Int
  timestamp : Nat
deriving DecidableEq

/-- `ShipmentBid` from types.ts, restricted to the fields the engine reads
or writes; `lane` is an opaque lane code. -/
structure ShipmentBid where
  id : Nat
  lane : Nat
  status : BidStatus
  offers : List BidOffer
  winningVendorId : Option Nat
  finalAmount : Option Int
  counterOffer : Option Int
deriving DecidableEq

/-- `User` from types.ts: `lanes?: string[]` is optional and only present
for vendors. -/
structure User where
  id : Nat
  lanes : Option (List Nat)
deriving DecidableEq

/-- `placeOffer` from App.tsx: appends the new offer to the matching
shipment bid and re-sorts the offer list ascending by amount (stable). -/
def placeOffer (bids : List ShipmentBid) (bidId vendorId vendorName : Nat)
    (amount : Int) (now : Nat) : List ShipmentBid :=
  bids.map (fun bid =>
    if bid.id = bidId then
      { bid with
        offers := sortK (fun o => o.amount) (bid.offers ++ [⟨vendorId, vendorName, amount, now⟩]) }
    else bid)

/-- `handleCounterOffer` from App.tsx: a no-op unless the bid exists and
has offers; otherwise the head of the offer list is the winner and the bid
moves to NEGOTIATING with `counterOffer` and `winningVendorId` set. -/
def handleCounterOffer (bids : List ShipmentBid) (bidId : Nat) (amount : Int) :
    List ShipmentBid :=
  match bids.find? (fun b => decide (b.id = bidId)) with
  | none => bids
  | some bid =>
      match bid.offers with
      | [] => bids
      | winner :: _ =>
          bids.map (fun b =>
            if b.id = bidId then
              { b with
                status := .NEGOTIATING
                counterOffer := some amount
                winningVendorId := some winner.vendorId }
            else b)

/-- `respondToCounter` from App.tsx: accepting finalizes the bid at the
counter-offer amount; declining re-opens it and clears the counter. -/
def respondToCounter (bids : List ShipmentBid) (bidId : Nat) (accept : Bool) :
    List ShipmentBid :=
  match bids.find? (fun b => decide (b.id = bidId)) with
  | none => bids
  | some bid =>
      if accept then
        bids.map (fun b =>
          if b.id = bidId then { b with status := .FINALIZED, finalAmount := bid.counterOffer }
          else b)
      else
        bids.map (fun b =>
          if b.id = bidId then { b with status := .OPEN, counterOffer := none }
          else b)

/-- `matchingBids` from components/VendorDashboard.tsx: with no lane list
or an empty one the vendor is shown nothing; otherwise the OPEN bids whose
lane belongs to the vendor's lanes. -/
def matchingBids (user : User) (bids : List ShipmentBid) : List ShipmentBid :=
  match user.lanes with
  | none => []
  | some lanes =>
      if lanes = [] then []
      else bids.filter (fun bid => decide (bid.lane ∈ lanes ∧ bid.status = .OPEN))

/-- `myRank` from components/VendorDashboard.tsx: the vendor's 1-based
position in the stable amount-sort of the offers, `none` when the offer
list is empty or the vendor has no offer. -/
def myRank (userId : Nat) (bid : ShipmentBid) : Option Nat :=
  if bid.offers = [] then none
  else
    match (sortK (fun o => o.amount) bid.offers).findIdx?
        (fun o => decide (o.vendorId = userId)) with
    | none => none
    | some i => some (i + 1)

end Forward

namespace SimpleBidding

/-- `LaneMaster` from types.ts, restricted to the fields the lane filter
reads; origin and destination are opaque route codes (the source compares
the city strings case-insensitively, which equality on codes models). -/
structure LaneMaster where
  id : Nat
  origin : Nat
  destination : Nat
deriving DecidableEq

/-- The route of a shipment, for the lane filter below.  In the source the
shipment carries `origin`/`destination` city strings. -/
structure Route where
  origin : Nat
  destination : Nat
deriving DecidableEq

/-- The lane-eligibility stage of `filteredShipments` in
components/auction/VendorAuctionMonitor.tsx: with no assigned lanes (or an
absent lane list) every shipment passes; otherwise a shipment passes iff
the first lane matching its route exists and its id is among the vendor's
lanes. -/
def filterByVendorLanes (userLanes : Option (List Nat)) (lanes : List LaneMaster)
    (shipments : List Route) : List Route :=
  match userLanes with
  | none => shipments
  | some ls =>
      if ls = [] then shipments
      else
        shipments.filter (fun s =>
          match lanes.find? (fun l =>
              decide (l.origin = s.origin ∧ l.destination = s.destination)) with
          | some lane => decide (lane.id ∈ ls)
          | none => false)

end SimpleBidding

/-! Concrete database states used to evaluate the operations. -/

namespace SimpleBidding

/-- One OPEN shipment, no bids. -/
def dbNoBids : BidDB := ⟨[⟨1, .OPEN, none, none, false⟩], []⟩

/-- One OPEN shipment with pending bids of 500, 450 and 600 by three
vendors, in submission order. -/
def dbThreeBids : BidDB :=
  ⟨[⟨1, .OPEN, none, none, false⟩],
   [⟨1, 1, 1, 71, 500, .PENDING, 10⟩,
    ⟨2, 1, 2, 72, 450, .PENDING, 11⟩,
    ⟨3, 1, 3, 73, 600, .PENDING, 12⟩]⟩

/-- One shipment already CLOSED, no bids. -/
def dbClosedShipment : BidDB := ⟨[⟨1, .CLOSED, none, none, false⟩], []⟩

/-- One shipment already CLOSED, with a single pending bid. -/
def dbClosedWithBid : BidDB :=
  ⟨[⟨1, .CLOSED, none, none, false⟩], [⟨1, 1, 1, 71, 500, .PENDING, 10⟩]⟩

/-- One OPEN shipment where vendor 7 holds a REJECTED bid. -/
def dbRejectedBid : BidDB :=
  ⟨[⟨1, .OPEN, none, none, false⟩], [⟨1, 1, 7, 77, 500, .REJECTED, 10⟩]⟩

end SimpleBidding

namespace Live

/-- One ACTIVE auction (lane 5, window ending at 100) on which vendor 7
holds one ACTIVE bid of 500 placed at time 10. -/
def liveDbOneActive : LiveDB :=
  ⟨[⟨1, 5, .ACTIVE, 0, 100, none, none, none⟩],
   [⟨1, 1, 5, 7, 77, 500, .ACTIVE, 10, none⟩]⟩

/-- One CLOSED auction with no bids. -/
def liveDbClosed : LiveDB := ⟨[⟨1, 5, .CLOSED, 0, 100, none, none, none⟩], []⟩

end Live

namespace Forward

/-- One OPEN shipment bid on lane 3 with offers 450 (vendor 7) and
500 (vendor 8), in submission order. -/
def fwdBids : List ShipmentBid :=
  [⟨1, 3, .OPEN, [⟨7, 77, 450, 10⟩, ⟨8, 88, 500, 11⟩], none, none, none⟩]

/-- A vendor with an explicitly empty lane list. -/
def vendorNoLanes : User := ⟨9, some []⟩

/-- A vendor assigned exactly lane 3. -/
def vendorLane3 : User := ⟨9, some [3]⟩

end Forward

/-! Lemmas on the stable sort. -/

theorem mem_insertK {α : Type} (k : α → Int) (x a : α) (l : List α) :
    a ∈ insertK k x l ↔ a = x ∨ a ∈ l := by
  induction l with
  | nil => simp [insertK]
  | cons y ys ih =>
      simp only [insertK]
      split
      · simp [List.mem_cons]
      · simp only [List.mem_cons, ih]
        tauto

theorem mem_sortK {α : Type} (k : α → Int) (a : α) (l : List α) :
    a ∈ sortK k l ↔ a ∈ l := by
  induction l with
  | nil => simp [sortK]
  | cons x xs ih => simp [sortK, mem_insertK, ih]

/-- Stability of `insertK`: inserting an element that originally preceded
every element of an already lexicographically ordered list keeps the list
ordered by key with the original order among equal keys. -/
theorem pairwise_insertK {α : Type} (k : α → Int) (R : α → α → Prop) (x : α)
    (l : List α)
    (hl : l.Pairwise (fun a b => k a < k b ∨ (k a = k b ∧ R a b)))
    (hx : ∀ y ∈ l, R x y) :
    (insertK k x l).Pairwise (fun a b => k a < k b ∨ (k a = k b ∧ R a b)) := by
  induction l with
  | nil => simp [insertK]
  | cons y ys ih =>
      rw [List.pairwise_cons] at hl
      obtain ⟨hy, hys⟩ := hl
      simp only [insertK]
      split
      case isTrue h =>
        refine List.Pairwise.cons ?_ (List.Pairwise.cons hy hys)
        intro z hz
        rcases List.mem_cons.mp hz with rfl | hz2
        · rcases lt_or_eq_of_le h with h2 | h2
          · exact Or.inl h2
          · exact Or.inr ⟨h2, hx _ (List.mem_cons_self _ _)⟩
        · rcases hy z hz2 with h2 | ⟨h2, _⟩
          · exact Or.inl (lt_of_le_of_lt h h2)
          · rcases lt_or_eq_of_le h with h3 | h3
            · exact Or.inl (lt_of_lt_of_le h3 (le_of_eq h2))
            · exact Or.inr ⟨h3.trans h2, hx _ (List.mem_cons_of_mem _ hz2)⟩
      case isFalse h =>
        push_neg at h
        refine List.Pairwise.cons ?_ (ih hys (fun z hz => hx z (List.mem_cons_of_mem _ hz)))
        intro z hz
        rcases (mem_insertK k x z ys).mp hz with rfl | hz2
        · exact Or.inl h
        · exact hy z hz2

/-- Stability of `sortK`: sorting a list whose successive elements satisfy
`R` yields a list ascending by key in which equal keys still satisfy `R`
in order.  This is how the engine's tie-break by submission time arises:
the bid collections are kept in submission order and the sort is stable. -/
theorem pairwise_sortK {α : Type} (k : α → Int) (R : α → α → Prop) (l : List α)
    (hl : l.Pairwise R) :
    (sortK k l).Pairwise (fun a b => k a < k b ∨ (k a = k b ∧ R a b)) := by
  induction l with
  | nil => simp [sortK]
  | cons x xs ih =>
      rw [List.pairwise_cons] at hl
      exact pairwise_insertK k R x (sortK k xs) (ih hl.2)
        (fun y hy => hl.1 y ((mem_sortK k y xs).mp hy))

/-- `sortK` sorts ascending by the key. -/
theorem sorted_sortK {α : Type} (k : α → Int) (l : List α) :
    (sortK k l).Pairwise (fun a b => k a ≤ k b) := by
  have htriv : l.Pairwise (fun _ _ => True) := by
    induction l with
    | nil => simp
    | cons x xs ih => exact List.Pairwise.cons (fun _ _ => trivial) ih
  refine (pairwise_sortK k (fun _ _ => True) l htriv).imp ?_
  rintro a b (h | ⟨h, _⟩)
  · exact le_of_lt h
  · exact le_of_eq h

/-! Claim theorems. -/

/-- Claim C1.  Evaluation of `closeAuction` at the spec's own scenario.
With zero bids the shipment is CLOSED with no winner, as claimed.  With
bids 500, 450, 600 the lowest bid 450 is selected, APPROVED, the others
REJECTED and the shipment moves to pending admin approval — but, contrary
to the claim, the winning bid's id and amount are NOT recorded on the
request: `closeAuction` passes them to `updateShipmentStatus`, which only
persists them for the FINALIZED and APPROVED statuses, so `winningBidId`
and `finalAmount` stay unset (`none`). -/
theorem C1_closeAuction_eval :
    SimpleBidding.closeAuction SimpleBidding.dbNoBids 1 =
      (⟨[⟨1, .CLOSED, none, none, false⟩], []⟩, .noBids)
    ∧ (SimpleBidding.closeAuction SimpleBidding.dbThreeBids 1).2 =
        .winnerSelected 72 450
    ∧ (SimpleBidding.closeAuction SimpleBidding.dbThreeBids 1).1.bids =
        [⟨1, 1, 1, 71, 500, .REJECTED, 10⟩,
         ⟨2, 1, 2, 72, 450, .APPROVED, 11⟩,
         ⟨3, 1, 3, 73, 600, .REJECTED, 12⟩]
    ∧ (SimpleBidding.closeAuction SimpleBidding.dbThreeBids 1).1.shipments =
        [⟨1, .PENDING_ADMIN_APPROVAL, none, none, true⟩] := by decide

/-- Claim C2.  `closeAuction` is not guarded by the request state: after a
first successful close has already moved the shipment to pending admin
approval, a second call re-reads the bids, re-selects the same winner and
again reports `winnerSelected` (re-issuing the approve/reject writes)
instead of observing the transitioned state and no-opping. -/
theorem C2_closeAuction_second_call_reselects :
    (SimpleBidding.closeAuction SimpleBidding.dbThreeBids 1).2 =
      .winnerSelected 72 450
    ∧ (SimpleBidding.closeAuction SimpleBidding.dbThreeBids 1).1.shipments =
        [⟨1, .PENDING_ADMIN_APPROVAL, none, none, true⟩]
    ∧ (SimpleBidding.closeAuction
        (SimpleBidding.closeAuction SimpleBidding.dbThreeBids 1).1 1).2 =
      .winnerSelected 72 450 := by decide

/-- Claim C3.  A successful reverse-auction bid by a vendor who already
holds an ACTIVE bid does not supersede the prior bid: the new bid is
appended with status ACTIVE and the prior bid keeps status ACTIVE, so the
vendor then holds two ACTIVE bids on the same auction. -/
theorem C3_placeBid_duplicates_active_bid :
    (Live.placeBid Live.liveDbOneActive 1 7 5 77 450 2 20).2 = .ok 2 false
    ∧ (Live.placeBid Live.liveDbOneActive 1 7 5 77 450 2 20).1.bids =
        [⟨1, 1, 5, 7, 77, 500, .ACTIVE, 10, none⟩,
         ⟨2, 1, 5, 7, 77, 450, .ACTIVE, 20, none⟩]
    ∧ ((Live.placeBid Live.liveDbOneActive 1 7 5 77 450 2 20).1.bids.filter
        (fun b => decide (b.auctionId = 1 ∧ b.vendorId = 7 ∧ b.status = .ACTIVE))).length
      = 2 := by decide

/-- Claim C10.  In the simple close-then-approve model, `placeBid` fails
with the duplicate-bid error for every vendor who has any existing bid on
the shipment: the duplicate check `getVendorBidOnShipment` matches on
shipment and vendor only, never on the bid status, so a REJECTED or
APPROVED bid blocks a fresh submission just like an active one, and the
database is left unchanged. -/
theorem C10_placeBid_rejects_any_prior_bid
    (db : SimpleBidding.BidDB) (sid vid vendorName : Nat) (amount : Int)
    (newId now : Nat) (b : SimpleBidding.VendorBid) (hb : b ∈ db.bids)
    (hs : b.shipmentId = sid) (hv : b.vendorId = vid) :
    SimpleBidding.placeBid db sid vid vendorName amount newId now = (db, .alreadyBid) := by
  have hsome : (SimpleBidding.getVendorBidOnShipment db sid vid).isSome := by
    rw [SimpleBidding.getVendorBidOnShipment, List.find?_isSome]
    exact ⟨b, hb, by simp [hs, hv]⟩
  obtain ⟨c, hc⟩ := Option.isSome_iff_exists.mp hsome
  simp [SimpleBidding.placeBid, hc]

/-- Witness for C10: vendor 7 holds a REJECTED bid on shipment 1 and a
fresh submission by vendor 7 is refused, leaving the database unchanged. -/
theorem C10_witness :
    (⟨1, 1, 7, 77, 500, .REJECTED, 10⟩ : SimpleBidding.VendorBid) ∈
        SimpleBidding.dbRejectedBid.bids
    ∧ SimpleBidding.placeBid SimpleBidding.dbRejectedBid 1 7 99 400 2 20 =
        (SimpleBidding.dbRejectedBid, .alreadyBid) :=
  ⟨by decide,
    C10_placeBid_rejects_any_prior_bid SimpleBidding.dbRejectedBid 1 7 99 400 2 20
      ⟨1, 1, 7, 77, 500, .REJECTED, 10⟩ (by decide) rfl rfl⟩

/-- Counterexample to claim C5: in the simple close-then-approve model a
submission on a shipment whose state is CLOSED (not OPEN) is accepted and
the offer admitted — `BiddingService.placeBid` performs no state or
bidding-window check at all. -/
theorem C5_counterexample_no_window_check :
    SimpleBidding.dbClosedShipment.shipments = [⟨1, .CLOSED, none, none, false⟩]
    ∧ (SimpleBidding.placeBid SimpleBidding.dbClosedShipment 1 7 77 500 2 20).2 = .ok 2
    ∧ (SimpleBidding.placeBid SimpleBidding.dbClosedShipment 1 7 77 500 2 20).1.bids =
        [⟨2, 1, 7, 77, 500, .PENDING, 20⟩] := by decide

/-- Claim C5 as amended.  In the live reverse-auction model, a submission
is rejected with no state change when the auction's status is not ACTIVE,
and — independently of the stored status — when the end of the bidding
window has passed, so an expired-but-still-ACTIVE auction also rejects. -/
theorem C5_amended_window_enforcement
    (db : Live.LiveDB) (aid vid lid vendorName : Nat) (amount : Int)
    (newId now : Nat)
    (hf : ¬(aid = 0 ∨ vid = 0 ∨ vendorName = 0 ∨ lid = 0))
    (hamt : ¬ amount ≤ 0)
    (a : Live.LiveAuction) (ha : Live.getAuctionById db aid = some a) :
    (¬ a.status = .ACTIVE →
      Live.placeBid db aid vid lid vendorName amount newId now = (db, .notActive a.status))
    ∧ (a.status = .ACTIVE → a.endTime < now →
      Live.placeBid db aid vid lid vendorName amount newId now = (db, .expired)) := by
  constructor
  · intro hst
    simp [Live.placeBid, hf, hamt, ha, hst]
  · intro hst hend
    simp [Live.placeBid, hf, hamt, ha, hst, hend]

/-- Witness for the amended C5: a bid on a CLOSED auction is rejected. -/
theorem C5_amended_witness :
    Live.getAuctionById Live.liveDbClosed 1 =
        some ⟨1, 5, .CLOSED, 0, 100, none, none, none⟩
    ∧ Live.placeBid Live.liveDbClosed 1 7 5 77 450 2 20 =
        (Live.liveDbClosed, .notActive .CLOSED) :=
  ⟨by decide,
    (C5_amended_window_enforcement Live.liveDbClosed 1 7 5 77 450 2 20
      (by decide) (by decide) ⟨1, 5, .CLOSED, 0, 100, none, none, none⟩
      (by decide)).1 (by decide)⟩

/-- The admission tail of the live `placeBid` appends exactly one fresh
ACTIVE bid and reports success together with the non-competitive flag. -/
theorem admitBid_spec (db : Live.LiveDB) (aid vid lid vendorName : Nat)
    (amount : Int) (newId now : Nat) :
    ∃ newDb, Live.admitBid db aid vid lid vendorName amount newId now =
        (newDb, .ok newId (Live.nonCompetitive db aid amount))
      ∧ newDb.bids =
          db.bids ++ [⟨newId, aid, lid, vid, vendorName, amount, .ACTIVE, now, none⟩] := by
  unfold Live.admitBid
  cases h : ((Live.getBidsForAuction db aid).map (fun b => b.amount)).min? with
  | none =>
      refine ⟨Live.updateAuctionLowest
        { db with bids := db.bids ++
            [⟨newId, aid, lid, vid, vendorName, amount, .ACTIVE, now, none⟩] }
        aid amount vid, by simp [h], ?_⟩
      simp [Live.updateAuctionLowest]
  | some m =>
      by_cases hm : amount < m
      · refine ⟨Live.updateAuctionLowest
          { db with bids := db.bids ++
              [⟨newId, aid, lid, vid, vendorName, amount, .ACTIVE, now, none⟩] }
          aid amount vid, by simp [h, hm], ?_⟩
        simp [Live.updateAuctionLowest]
      · refine ⟨{ db with bids := db.bids ++
            [⟨newId, aid, lid, vid, vendorName, amount, .ACTIVE, now, none⟩] },
          by simp [h, hm], ?_⟩
        simp

/-- Claim C4.  Reverse-bid monotonicity against the vendor's own previous
bid: with the window checks passed and a previous bid `prev` on record,
a new amount at or above `prev.amount` is rejected with the
not-lower-than-own-bid error and no state change; a new amount strictly
below `prev.amount` is always accepted — the comparison with the
market-wide lowest bid only determines the logged non-competitive flag —
and any accepted submission is strictly below the vendor's previous
amount, so successive accepted submissions strictly decrease. -/
theorem C4_reverse_bid_monotonicity
    (db : Live.LiveDB) (aid vid lid vendorName : Nat) (amount : Int)
    (newId now : Nat)
    (hf : ¬(aid = 0 ∨ vid = 0 ∨ vendorName = 0 ∨ lid = 0))
    (hamt : ¬ amount ≤ 0)
    (a : Live.LiveAuction) (ha : Live.getAuctionById db aid = some a)
    (hact : a.status = .ACTIVE) (hend : ¬ a.endTime < now)
    (prev : Live.ReverseBid)
    (hprev : (Live.getVendorBidsOnAuction db aid vid).head? = some prev) :
    (prev.amount ≤ amount →
      Live.placeBid db aid vid lid vendorName amount newId now =
        (db, .notLowerThanOwnBid prev.amount))
    ∧ (amount < prev.amount →
      ∃ newDb, Live.placeBid db aid vid lid vendorName amount newId now =
          (newDb, .ok newId (Live.nonCompetitive db aid amount))
        ∧ newDb.bids =
            db.bids ++ [⟨newId, aid, lid, vid, vendorName, amount, .ACTIVE, now, none⟩])
    ∧ (∀ db2 i w,
        Live.placeBid db aid vid lid vendorName amount newId now = (db2, .ok i w) →
        amount < prev.amount) := by
  have hred : Live.placeBid db aid vid lid vendorName amount newId now =
      (if prev.amount ≤ amount then (db, .notLowerThanOwnBid prev.amount)
       else Live.admitBid db aid vid lid vendorName amount newId now) := by
    simp [Live.placeBid, hf, hamt, ha, hact, hend, hprev]
  refine ⟨?_, ?_, ?_⟩
  · intro hle
    rw [hred, if_pos hle]
  · intro hlt
    rw [hred, if_neg (not_le.mpr hlt)]
    exact admitBid_spec db aid vid lid vendorName amount newId now
  · intro db2 i w heq
    by_cases hle : prev.amount ≤ amount
    · rw [hred, if_pos hle] at heq
      simp at heq
    · exact not_le.mp hle

/-- Witness for C4: vendor 7, holding a previous bid of 500, successfully
undercuts with 450; the new bid is appended as ACTIVE. -/
theorem C4_witness :
    (450 : Int) < 500
    ∧ ∃ newDb, Live.placeBid Live.liveDbOneActive 1 7 5 77 450 2 20 =
        (newDb, .ok 2 (Live.nonCompetitive Live.liveDbOneActive 1 450))
      ∧ newDb.bids =
          Live.liveDbOneActive.bids ++ [⟨2, 1, 5, 7, 77, 450, .ACTIVE, 20, none⟩] :=
  ⟨by decide,
    (C4_reverse_bid_monotonicity Live.liveDbOneActive 1 7 5 77 450 2 20
      (by decide) (by decide) ⟨1, 5, .ACTIVE, 0, 100, none, none, none⟩
      (by decide) rfl (by decide) ⟨1, 1, 5, 7, 77, 500, .ACTIVE, 10, none⟩
      (by decide)).2.1 (by decide)⟩

/-- Claim C6.  The ledger's rank order: provided the stored bid list is in
submission order (which holds because bids are only ever appended, with
monotone timestamps, under Firebase push keys), `getBidsForShipment` is
ascending by amount with ties ordered by earliest submission timestamp,
and its head — the rank-1 offer — has the lowest amount and, among
equal-amount offers, the earliest submission timestamp. -/
theorem C6_ranking_order (db : SimpleBidding.BidDB) (sid : Nat)
    (hsub : db.bids.Pairwise (fun a b => a.createdAt ≤ b.createdAt)) :
    (SimpleBidding.getBidsForShipment db sid).Pairwise (fun a b =>
      a.bidAmount < b.bidAmount ∨ (a.bidAmount = b.bidAmount ∧ a.createdAt ≤ b.createdAt))
    ∧ ∀ w, (SimpleBidding.getBidsForShipment db sid).head? = some w →
        ∀ b ∈ SimpleBidding.getBidsForShipment db sid,
          w.bidAmount ≤ b.bidAmount ∧
          (w.bidAmount = b.bidAmount → w.createdAt ≤ b.createdAt) := by
  have hfil : (db.bids.filter (fun b => decide (b.shipmentId = sid))).Pairwise
      (fun a b => a.createdAt ≤ b.createdAt) := hsub.filter _
  have hp : (SimpleBidding.getBidsForShipment db sid).Pairwise (fun a b =>
      a.bidAmount < b.bidAmount ∨ (a.bidAmount = b.bidAmount ∧ a.createdAt ≤ b.createdAt)) :=
    pairwise_sortK (fun b => b.bidAmount) _ _ hfil
  refine ⟨hp, ?_⟩
  intro w hw b hb
  cases hl : SimpleBidding.getBidsForShipment db sid with
  | nil => rw [hl] at hw; cases hw
  | cons x t =>
      rw [hl] at hw hb hp
      obtain rfl : x = w := by simpa using hw
      rw [List.pairwise_cons] at hp
      rcases List.mem_cons.mp hb with rfl | hbt
      · exact ⟨le_refl _, fun _ => le_refl _⟩
      · rcases hp.1 b hbt with h | ⟨h1, h2⟩
        · exact ⟨le_of_lt h, fun heq => absurd heq (ne_of_lt h)⟩
        · exact ⟨le_of_eq h1, fun _ => h2⟩

/-- Witness for C6: the three-bid database is in submission order and its
ranked ledger for shipment 1 is ascending with the 450 bid at rank 1. -/
theorem C6_witness :
    SimpleBidding.dbThreeBids.bids.Pairwise (fun a b => a.createdAt ≤ b.createdAt)
    ∧ ((SimpleBidding.getBidsForShipment SimpleBidding.dbThreeBids 1).Pairwise (fun a b =>
        a.bidAmount < b.bidAmount ∨ (a.bidAmount = b.bidAmount ∧ a.createdAt ≤ b.createdAt))
      ∧ ∀ w, (SimpleBidding.getBidsForShipment SimpleBidding.dbThreeBids 1).head? = some w →
          ∀ b ∈ SimpleBidding.getBidsForShipment SimpleBidding.dbThreeBids 1,
            w.bidAmount ≤ b.bidAmount ∧
            (w.bidAmount = b.bidAmount → w.createdAt ≤ b.createdAt)) :=
  ⟨by decide, C6_ranking_order SimpleBidding.dbThreeBids 1 (by decide)⟩

/-- `find?` by id commutes with mapping an id-preserving update over the
bid list. -/
theorem find?_map_id_preserving (bids : List Forward.ShipmentBid) (bidId : Nat)
    (f : Forward.ShipmentBid → Forward.ShipmentBid)
    (hid : ∀ b, (f b).id = b.id) :
    (bids.map f).find? (fun b => decide (b.id = bidId)) =
      (bids.find? (fun b => decide (b.id = bidId))).map f := by
  induction bids with
  | nil => simp
  | cons x xs ih =>
      by_cases h : x.id = bidId
      · rw [List.map_cons, List.find?_cons_of_pos _ (by simp [hid x, h]),
          List.find?_cons_of_pos _ (by simp [h])]
        simp
      · rw [List.map_cons, List.find?_cons_of_neg _ (by simp [hid x, h]),
          List.find?_cons_of_neg _ (by simp [h])]
        exact ih

/-- Claim C9.  The negotiation sub-flow: on a bid with a non-empty,
amount-sorted offer list, a counter-offer records the head offer's vendor
(the lowest-amount bidder) as winning vendor, stores the counter amount
and moves the bid to NEGOTIATING; responding with accept finalizes at the
counter amount, responding with decline clears the counter and re-opens
the bid. -/
theorem C9_negotiation_flow
    (bids : List Forward.ShipmentBid) (bidId : Nat) (amount : Int)
    (bid : Forward.ShipmentBid)
    (hfind : bids.find? (fun b => decide (b.id = bidId)) = some bid)
    (winner : Forward.BidOffer) (rest : List Forward.BidOffer)
    (hoff : bid.offers = winner :: rest)
    (hsorted : bid.offers.Pairwise (fun a b => a.amount ≤ b.amount)) :
    (∀ o ∈ bid.offers, winner.amount ≤ o.amount)
    ∧ Forward.handleCounterOffer bids bidId amount =
        bids.map (fun b =>
          if b.id = bidId then
            { b with status := .NEGOTIATING, counterOffer := some amount,
                     winningVendorId := some winner.vendorId }
          else b)
    ∧ Forward.respondToCounter (Forward.handleCounterOffer bids bidId amount) bidId true =
        (Forward.handleCounterOffer bids bidId amount).map (fun b =>
          if b.id = bidId then { b with status := .FINALIZED, finalAmount := some amount }
          else b)
    ∧ Forward.respondToCounter (Forward.handleCounterOffer bids bidId amount) bidId false =
        (Forward.handleCounterOffer bids bidId amount).map (fun b =>
          if b.id = bidId then { b with status := .OPEN, counterOffer := none }
          else b) := by
  have hmin : ∀ o ∈ bid.offers, winner.amount ≤ o.amount := by
    rw [hoff] at hsorted ⊢
    rw [List.pairwise_cons] at hsorted
    intro o ho
    rcases List.mem_cons.mp ho with rfl | ho2
    · exact le_refl _
    · exact hsorted.1 o ho2
  have hc : Forward.handleCounterOffer bids bidId amount =
      bids.map (fun b =>
        if b.id = bidId then
          { b with status := .NEGOTIATING, counterOffer := some amount,
                   winningVendorId := some winner.vendorId }
        else b) := by
    simp [Forward.handleCounterOffer, hfind, hoff]
  have hbid_id : bid.id = bidId := by simpa using List.find?_some hfind
  have hfind1 : (Forward.handleCounterOffer bids bidId amount).find?
      (fun b => decide (b.id = bidId)) =
      some { bid with status := .NEGOTIATING, counterOffer := some amount,
                      winningVendorId := some winner.vendorId } := by
    rw [hc, find?_map_id_preserving bids bidId _
      (fun b => by by_cases h : b.id = bidId <;> simp [h]), hfind]
    simp [hbid_id]
  refine ⟨hmin, hc, ?_, ?_⟩
  · simp [Forward.respondToCounter, hfind1]
  · simp [Forward.respondToCounter, hfind1]

/-- Witness for C9: countering shipment bid 1 (offers 450 by vendor 7 and
500 by vendor 8) with 430 records vendor 7 as winning vendor and moves the
bid to NEGOTIATING. -/
theorem C9_witness :
    Forward.fwdBids.find? (fun b => decide (b.id = 1)) =
        some ⟨1, 3, .OPEN, [⟨7, 77, 450, 10⟩, ⟨8, 88, 500, 11⟩], none, none, none⟩
    ∧ Forward.handleCounterOffer Forward.fwdBids 1 430 =
        Forward.fwdBids.map (fun b =>
          if b.id = 1 then
            { b with status := .NEGOTIATING, counterOffer := some 430,
                     winningVendorId := some 7 }
          else b) :=
  ⟨by decide,
    (C9_negotiation_flow Forward.fwdBids 1 430
      ⟨1, 3, .OPEN, [⟨7, 77, 450, 10⟩, ⟨8, 88, 500, 11⟩], none, none, none⟩
      (by decide) ⟨7, 77, 450, 10⟩ [⟨8, 88, 500, 11⟩] rfl (by decide)).2.1⟩

/-- Counterexample to claim C8: in the forward-model vendor dashboard a
bidder with an (explicitly) empty lane set is shown no requests at all —
`matchingBids` returns the empty list although an OPEN request exists —
contradicting "a bidder with an empty lane set is eligible for every
request". -/
theorem C8_counterexample_empty_lanes :
    Forward.vendorNoLanes.lanes = some []
    ∧ Forward.fwdBids ≠ []
    ∧ (Forward.fwdBids.map (fun b => b.status)) = [.OPEN]
    ∧ Forward.matchingBids Forward.vendorNoLanes Forward.fwdBids = [] := by decide

/-- Claim C8 as amended.  Eligibility is lane membership, but the two
models disagree about an empty lane set: in the forward-model dashboard a
vendor with a non-empty lane list is shown exactly the OPEN requests whose
lane is in the list, while a vendor with an empty or absent lane list is
shown nothing; in the simple-model monitor an absent or empty lane list
disables the filter (every request passes), and a non-empty list admits
exactly the shipments whose first matching lane-master entry is among the
vendor's lanes. -/
theorem C8_amended_lane_eligibility
    (user : Forward.User) (ls : List Nat) (bids : List Forward.ShipmentBid)
    (bid : Forward.ShipmentBid) (lanes : List SimpleBidding.LaneMaster)
    (shipments : List SimpleBidding.Route) (lids : List Nat)
    (s : SimpleBidding.Route)
    (hls : user.lanes = some ls) :
    (ls ≠ [] →
      (bid ∈ Forward.matchingBids user bids ↔
        bid ∈ bids ∧ bid.lane ∈ ls ∧ bid.status = .OPEN))
    ∧ (ls = [] → Forward.matchingBids user bids = [])
    ∧ Forward.matchingBids ⟨user.id, none⟩ bids = []
    ∧ SimpleBidding.filterByVendorLanes none lanes shipments = shipments
    ∧ SimpleBidding.filterByVendorLanes (some []) lanes shipments = shipments
    ∧ (lids ≠ [] →
      (s ∈ SimpleBidding.filterByVendorLanes (some lids) lanes shipments ↔
        s ∈ shipments ∧ ∃ l, lanes.find? (fun l =>
            decide (l.origin = s.origin ∧ l.destination = s.destination)) = some l
          ∧ l.id ∈ lids)) := by
  refine ⟨?_, ?_, ?_, ?_, ?_, ?_⟩
  · intro hne
    simp [Forward.matchingBids, hls, hne, List.mem_filter, and_assoc]
  · intro he
    simp [Forward.matchingBids, hls, he]
  · simp [Forward.matchingBids]
  · rfl
  · simp [SimpleBidding.filterByVendorLanes]
  · intro hne
    have hred : SimpleBidding.filterByVendorLanes (some lids) lanes shipments =
        shipments.filter (fun s =>
          match lanes.find? (fun l =>
              decide (l.origin = s.origin ∧ l.destination = s.destination)) with
          | some lane => decide (lane.id ∈ lids)
          | none => false) := by
      simp [SimpleBidding.filterByVendorLanes, hne]
    rw [hred, List.mem_filter]
    constructor
    · rintro ⟨hmem, hp⟩
      refine ⟨hmem, ?_⟩
      cases hf : lanes.find? (fun l =>
          decide (l.origin = s.origin ∧ l.destination = s.destination)) with
      | none =>
          rw [hf] at hp
          cases hp
      | some l =>
          rw [hf] at hp
          exact ⟨l, rfl, by simpa using hp⟩
    · rintro ⟨hmem, l, hf, hl⟩
      refine ⟨hmem, ?_⟩
      rw [hf]
      simpa using hl

/-- Witness for the amended C8: a vendor assigned lane 3 is shown the OPEN
request on lane 3. -/
theorem C8_amended_witness :
    Forward.vendorLane3.lanes = some [3]
    ∧ (⟨1, 3, .OPEN, [⟨7, 77, 450, 10⟩, ⟨8, 88, 500, 11⟩], none, none, none⟩ ∈
          Forward.matchingBids Forward.vendorLane3 Forward.fwdBids ↔
        (⟨1, 3, .OPEN, [⟨7, 77, 450, 10⟩, ⟨8, 88, 500, 11⟩], none, none, none⟩ :
            Forward.ShipmentBid) ∈ Forward.fwdBids
          ∧ (3 : Nat) ∈ [(3 : Nat)]
          ∧ Forward.BidStatus.OPEN = .OPEN) :=
  ⟨rfl,
    (C8_amended_lane_eligibility Forward.vendorLane3 [3] Forward.fwdBids
      ⟨1, 3, .OPEN, [⟨7, 77, 450, 10⟩, ⟨8, 88, 500, 11⟩], none, none, none⟩
      [] [] [1] ⟨0, 0⟩ rfl).1 (by decide)⟩

/-- Counterexample to claim C7: approving a bid on a shipment that is
CLOSED — not pending resolution — is not surfaced as a rejected operation
with the states unchanged: the offer's status mutates to APPROVED.  The
shipment record itself stays untouched (so no transition to FINALIZED
ever happens either): the final shipment write of `approveBid` carries an
undefined `finalAmount` and fails inside `updateShipmentStatus`. -/
theorem C7_counterexample_no_state_guard :
    SimpleBidding.dbClosedWithBid.shipments = [⟨1, .CLOSED, none, none, false⟩]
    ∧ (SimpleBidding.approveBid SimpleBidding.dbClosedWithBid 1 1).bids =
        [⟨1, 1, 1, 71, 500, .APPROVED, 10⟩]
    ∧ (SimpleBidding.approveBid SimpleBidding.dbClosedWithBid 1 1).shipments =
        [⟨1, .CLOSED, none, none, false⟩] := by decide

/-- The reject-others fold of `approveBid` never touches the shipments. -/
theorem foldl_reject_shipments (L : List SimpleBidding.VendorBid)
    (d : SimpleBidding.BidDB) (bidId : Nat) :
    (L.foldl (fun d b =>
        if ¬ b.id = bidId then SimpleBidding.setBidStatus d b.id .REJECTED else d)
      d).shipments = d.shipments := by
  induction L generalizing d with
  | nil => rfl
  | cons c L ih =>
      rw [List.foldl_cons, ih]
      by_cases h : c.id = bidId
      · simp [h]
      · simp [h, SimpleBidding.setBidStatus]

/-- The reject-others fold of `approveBid` as one map over the bid list:
a bid's status becomes REJECTED exactly when its id differs from the
approved one and occurs in the folded list. -/
theorem foldl_reject_bids (L : List SimpleBidding.VendorBid)
    (d : SimpleBidding.BidDB) (bidId : Nat) :
    (L.foldl (fun d b =>
        if ¬ b.id = bidId then SimpleBidding.setBidStatus d b.id .REJECTED else d)
      d).bids
      = d.bids.map (fun x =>
          if ¬ x.id = bidId ∧ ∃ b ∈ L, b.id = x.id then { x with status := .REJECTED }
          else x) := by
  induction L generalizing d with
  | nil => simp
  | cons c L ih =>
      rw [List.foldl_cons, ih]
      by_cases hc : c.id = bidId
      · rw [if_neg (by simp [hc])]
        refine List.map_congr_left (fun x hx => ?_)
        by_cases hA : x.id = bidId
        · simp [hA]
        · have hcx : ¬ c.id = x.id := fun h => hA (h.symm.trans hc)
          simp [hA, hcx]
      · rw [if_pos (by simp [hc])]
        simp only [SimpleBidding.setBidStatus, List.map_map]
        refine List.map_congr_left (fun x hx => ?_)
        by_cases hxc : x.id = c.id
        · have hA : ¬ x.id = bidId := fun h => hc (hxc.symm.trans h)
          simp [Function.comp, hxc, hA, hc]
        · simp only [Function.comp]
          rw [if_neg hxc]
          by_cases hA : x.id = bidId
          · simp [hA]
          · have hcx : ¬ c.id = x.id := fun h => hxc h.symm
            simp [hA, hcx]

/-- Claim C7 as amended.  `approveBid` performs no state check at all:
from any request state it marks the given bid APPROVED and marks every
other bid of the shipment REJECTED; its final shipment write passes
`finalAmount` as `undefined`, so the firebase update throws (swallowed by
`updateShipmentStatus`) and the shipment record is left entirely
unchanged — the request is neither moved to FINALIZED nor to APPROVED and
no winning bid id is recorded on it.  No approval attempt is ever
surfaced as a rejected operation, and the prior state is never
consulted. -/
theorem C7_amended_approveBid (db : SimpleBidding.BidDB) (bidId sid : Nat)
    (hnodup : (db.bids.map (fun b => b.id)).Nodup) :
    (SimpleBidding.approveBid db bidId sid).shipments = db.shipments
    ∧ (SimpleBidding.approveBid db bidId sid).bids =
      db.bids.map (fun b =>
        if b.id = bidId then { b with status := .APPROVED }
        else if b.shipmentId = sid then { b with status := .REJECTED }
        else b) := by
  have hgA : (SimpleBidding.setBidStatus db bidId .APPROVED).bids =
      db.bids.map (fun b => if b.id = bidId then { b with status := .APPROVED } else b) := rfl
  have hids : ((SimpleBidding.setBidStatus db bidId .APPROVED).bids.map (fun b => b.id)) =
      db.bids.map (fun b => b.id) := by
    rw [hgA, List.map_map]
    exact List.map_congr_left (fun x hx => by
      by_cases h : x.id = bidId <;> simp [Function.comp, h])
  have hnodup1 : ((SimpleBidding.setBidStatus db bidId .APPROVED).bids.map
      (fun b => b.id)).Nodup := by
    rw [hids]; exact hnodup
  have hmem_equiv : ∀ x ∈ (SimpleBidding.setBidStatus db bidId .APPROVED).bids,
      ((∃ b ∈ SimpleBidding.getBidsForShipment
          (SimpleBidding.setBidStatus db bidId .APPROVED) sid, b.id = x.id) ↔
        x.shipmentId = sid) := by
    intro x hx
    constructor
    · rintro ⟨b, hb, hbid⟩
      rw [SimpleBidding.getBidsForShipment, mem_sortK] at hb
      have hb2 := List.mem_filter.mp hb
      have hbx : b = x := List.inj_on_of_nodup_map hnodup1 hb2.1 hx hbid
      subst hbx
      simpa using hb2.2
    · intro hs
      refine ⟨x, ?_, rfl⟩
      rw [SimpleBidding.getBidsForShipment, mem_sortK]
      exact List.mem_filter.mpr ⟨hx, by simp [hs]⟩
  have hupd : ∀ d : SimpleBidding.BidDB,
      SimpleBidding.updateShipmentStatus d sid .APPROVED (some bidId) none = d := by
    intro d
    simp [SimpleBidding.updateShipmentStatus]
  unfold SimpleBidding.approveBid
  rw [hupd]
  constructor
  · rw [foldl_reject_shipments]
    rfl
  · rw [foldl_reject_bids, hgA, List.map_map]
    refine List.map_congr_left (fun x hx => ?_)
    by_cases h1 : x.id = bidId
    · simp [Function.comp, h1]
    · have hx1 : x ∈ (SimpleBidding.setBidStatus db bidId .APPROVED).bids := by
        rw [hgA]
        exact List.mem_map.mpr ⟨x, hx, by simp [h1]⟩
      have hiff := hmem_equiv x hx1
      by_cases h2 : x.shipmentId = sid
      · simp [Function.comp, h1, h2, hiff]
      · simp [Function.comp, h1, h2, hiff]

/-- Witness for the amended C7: approving bid 2 of the three-bid database
marks it APPROVED and rejects the other two bids of the shipment. -/
theorem C7_amended_witness :
    (SimpleBidding.dbThreeBids.bids.map (fun b => b.id)).Nodup
    ∧ (SimpleBidding.approveBid SimpleBidding.dbThreeBids 2 1).bids =
        SimpleBidding.dbThreeBids.bids.map (fun b =>
          if b.id = 2 then { b with status := .APPROVED }
          else if b.shipmentId = 1 then { b with status := .REJECTED }
          else b) :=
  ⟨by decide, (C7_amended_approveBid SimpleBidding.dbThreeBids 2 1 (by decide)).2⟩

end Procurement
